import Mathlib

/-!
Verification development for the GGShot trading bot
(`ggshot_bybit_bot.py`).  Python floats are modelled as rationals
(exact arithmetic), pandas DataFrames of candles as lists of records,
the mutable per-symbol dictionaries as functions from `String` to
`Option`, and every external exchange call (HTTP/WebSocket) as an
oracle record supplying that call's outcome.
-/

namespace GGShot

/-- One OHLCV bar, a row of the kline DataFrame.  The `timestamp`
column (milliseconds) is the dedup key; `open_` stands for the
source's `open` column (a Lean keyword). -/
structure Candle where
  timestamp : ℕ
  open_ : ℚ
  high : ℚ
  low : ℚ
  close : ℚ
  volume : ℚ
  turnover : ℚ
  deriving DecidableEq

/-- Capacity of a candle series, `self.max_candles = 100`. -/
def max_candles : ℕ := 100

/-- Embeds `df.drop_duplicates(subset=['timestamp'], keep='last')`:
a row survives iff no later row carries the same timestamp. -/
def drop_duplicates_keep_last : List Candle → List Candle
  | [] => []
  | c :: rest =>
    if rest.any fun d => decide (d.timestamp = c.timestamp) then
      drop_duplicates_keep_last rest
    else
      c :: drop_duplicates_keep_last rest

/-- Comparison used by `df.sort_values('timestamp')`. -/
def candle_le (a b : Candle) : Prop := a.timestamp ≤ b.timestamp

instance : DecidableRel candle_le := fun a b => Nat.decLe a.timestamp b.timestamp

instance : IsTotal Candle candle_le := ⟨fun a b => Nat.le_total a.timestamp b.timestamp⟩

instance : IsTrans Candle candle_le := ⟨fun _ _ _ h1 h2 => Nat.le_trans h1 h2⟩

/-- Embeds `df.sort_values('timestamp')` (ascending; keys are unique
after dedup, so the sorting algorithm is irrelevant). -/
def sort_values (l : List Candle) : List Candle := List.insertionSort candle_le l

/-- Embeds the merge step shared by `update_historical_data` and
`handle_kline_update`: concatenate old rows and new rows, drop
duplicate timestamps keeping the last write, sort by timestamp, and
keep only the trailing `max_candles` rows (`df.tail(100)`). -/
def update_historical_data (df new_candle_df : List Candle) : List Candle :=
  let sorted := sort_values (drop_duplicates_keep_last (df ++ new_candle_df))
  if max_candles < sorted.length then sorted.drop (sorted.length - max_candles) else sorted

/-- A whole run of merges into one (symbol, timeframe) series, which
`__init__` seeds with an empty DataFrame. -/
def merge_history (batches : List (List Candle)) : List Candle :=
  batches.foldl update_historical_data []

/-- Last candle bearing timestamp `t` in a stream of rows, i.e. the
last-merged value for that key. -/
def last_write (l : List Candle) (t : ℕ) : Option Candle :=
  (l.filter fun c => decide (c.timestamp = t)).getLast?

lemma dedup_subset (l : List Candle) : drop_duplicates_keep_last l ⊆ l := by
  induction l with
  | nil => simp [drop_duplicates_keep_last]
  | cons a rest ih =>
    unfold drop_duplicates_keep_last
    split
    · exact ih.trans (List.subset_cons_self a rest)
    · exact List.cons_subset_cons a ih

lemma mem_dedup_last_write :
    ∀ {l : List Candle} {c : Candle}, c ∈ drop_duplicates_keep_last l →
      last_write l c.timestamp = some c := by
  intro l
  induction l with
  | nil => simp [drop_duplicates_keep_last]
  | cons a rest ih =>
    intro c hc
    unfold drop_duplicates_keep_last at hc
    by_cases hdup : rest.any (fun d => decide (d.timestamp = a.timestamp)) = true
    · rw [if_pos hdup] at hc
      have h1 := ih hc
      unfold last_write at h1 ⊢
      rw [List.filter_cons]
      by_cases hts : a.timestamp = c.timestamp
      · rw [if_pos (by simpa using hts)]
        have hcr : c ∈ rest := dedup_subset rest hc
        have hne : (rest.filter fun d => decide (d.timestamp = c.timestamp)) ≠ [] := by
          intro h0
          rw [List.filter_eq_nil_iff] at h0
          exact h0 c hcr (by simp)
        obtain ⟨y, ys, hys⟩ := List.exists_cons_of_ne_nil hne
        rw [hys] at h1 ⊢
        simpa using h1
      · rw [if_neg (by simpa using hts)]
        exact h1
    · rw [if_neg hdup] at hc
      rw [List.any_eq_true] at hdup
      push_neg at hdup
      rcases List.mem_cons.mp hc with hca | hcr
      · subst hca
        unfold last_write
        rw [List.filter_cons, if_pos (by simp)]
        have hnil : (rest.filter fun d => decide (d.timestamp = c.timestamp)) = [] := by
          rw [List.filter_eq_nil_iff]
          intro d hd
          simpa using fun he => (hdup d hd) (by simpa using he)
        rw [hnil]
        rfl
      · have hcrest : c ∈ rest := dedup_subset rest hcr
        have hne : ¬ a.timestamp = c.timestamp := by
          intro he
          exact (hdup c hcrest) (by simpa using he.symm)
        have h1 := ih hcr
        unfold last_write at h1 ⊢
        rw [List.filter_cons, if_neg (by simpa using hne)]
        exact h1

lemma dedup_ts_nodup (l : List Candle) :
    ((drop_duplicates_keep_last l).map Candle.timestamp).Nodup := by
  induction l with
  | nil => simp [drop_duplicates_keep_last]
  | cons a rest ih =>
    unfold drop_duplicates_keep_last
    split
    · exact ih
    · next hdup =>
      rw [List.map_cons, List.nodup_cons]
      refine ⟨?_, ih⟩
      intro hmem
      obtain ⟨d, hd, hde⟩ := List.mem_map.mp hmem
      have hdr : d ∈ rest := dedup_subset rest hd
      have : rest.any (fun d => decide (d.timestamp = a.timestamp)) = true :=
        List.any_eq_true.mpr ⟨d, hdr, by simpa using hde⟩
      simp [this] at hdup

lemma sorted_nodup_pairwise_lt :
    ∀ {l : List Candle}, List.Sorted candle_le l →
      (l.map Candle.timestamp).Nodup →
      l.Pairwise (fun a b => a.timestamp < b.timestamp) := by
  intro l
  induction l with
  | nil => simp
  | cons a rest ih =>
    intro hs hn
    rw [List.sorted_cons] at hs
    rw [List.map_cons, List.nodup_cons] at hn
    rw [List.pairwise_cons]
    refine ⟨?_, ih hs.2 hn.2⟩
    intro b hb
    refine lt_of_le_of_ne (hs.1 b hb) ?_
    intro he
    exact hn.1 (List.mem_map.mpr ⟨b, hb, he.symm⟩)

lemma update_length (s b : List Candle) :
    (update_historical_data s b).length ≤ max_candles := by
  unfold update_historical_data
  dsimp only
  set sorted := sort_values (drop_duplicates_keep_last (s ++ b)) with hs
  split
  · next h => rw [List.length_drop]; omega
  · next h => omega

lemma update_pairwise (s b : List Candle) :
    (update_historical_data s b).Pairwise (fun a b => a.timestamp < b.timestamp) := by
  unfold update_historical_data
  have hsorted : List.Sorted candle_le (sort_values (drop_duplicates_keep_last (s ++ b))) :=
    List.sorted_insertionSort candle_le _
  have hperm : ((sort_values (drop_duplicates_keep_last (s ++ b))).map Candle.timestamp).Perm
      ((drop_duplicates_keep_last (s ++ b)).map Candle.timestamp) :=
    (List.perm_insertionSort candle_le _).map Candle.timestamp
  have hnodup := (hperm.symm).nodup (dedup_ts_nodup (s ++ b))
  have hpw := sorted_nodup_pairwise_lt hsorted hnodup
  dsimp only
  split
  · exact hpw.sublist (List.drop_sublist _ _)
  · exact hpw

lemma update_mem_dedup {s b : List Candle} {c : Candle}
    (hc : c ∈ update_historical_data s b) :
    c ∈ drop_duplicates_keep_last (s ++ b) := by
  unfold update_historical_data at hc
  dsimp only at hc
  have hmem : c ∈ sort_values (drop_duplicates_keep_last (s ++ b)) := by
    split at hc
    · exact List.drop_subset _ _ hc
    · exact hc
  exact (List.perm_insertionSort candle_le _).subset hmem

lemma update_last_write {hist s b : List Candle}
    (hInv : ∀ c ∈ s, last_write hist c.timestamp = some c) :
    ∀ c ∈ update_historical_data s b, last_write (hist ++ b) c.timestamp = some c := by
  intro c hc
  have hd := mem_dedup_last_write (update_mem_dedup hc)
  unfold last_write at hd ⊢
  rw [List.filter_append] at hd ⊢
  by_cases hb : (b.filter fun d => decide (d.timestamp = c.timestamp)) = []
  · rw [hb, List.append_nil] at hd ⊢
    have hcs : c ∈ s := by
      obtain ⟨ys, hys⟩ := List.getLast?_eq_some_iff.mp hd
      have hmemf : c ∈ s.filter fun d => decide (d.timestamp = c.timestamp) := by
        rw [hys]; simp
      exact (List.mem_filter.mp hmemf).1
    have h2 := hInv c hcs
    unfold last_write at h2
    exact h2
  · rw [List.getLast?_append_of_ne_nil _ hb] at hd ⊢
    exact hd

lemma merge_last_write :
    ∀ (batches : List (List Candle)) (hist s : List Candle),
      (∀ c ∈ s, last_write hist c.timestamp = some c) →
      ∀ c ∈ batches.foldl update_historical_data s,
        last_write (hist ++ batches.flatten) c.timestamp = some c := by
  intro batches
  induction batches with
  | nil =>
    intro hist s hInv c hc
    rw [List.foldl_nil] at hc
    simpa using hInv c hc
  | cons b bs ih =>
    intro hist s hInv c hc
    rw [List.foldl_cons] at hc
    rw [List.flatten_cons, ← List.append_assoc]
    exact ih (hist ++ b) (update_historical_data s b) (update_last_write hInv) c hc

lemma merge_len_pw :
    ∀ (batches : List (List Candle)) (s : List Candle),
      s.length ≤ max_candles → s.Pairwise (fun a b => a.timestamp < b.timestamp) →
      (batches.foldl update_historical_data s).length ≤ max_candles ∧
      (batches.foldl update_historical_data s).Pairwise
        (fun a b => a.timestamp < b.timestamp) := by
  intro batches
  induction batches with
  | nil => intro s h1 h2; exact ⟨h1, h2⟩
  | cons b bs ih =>
    intro s h1 h2
    rw [List.foldl_cons]
    exact ih _ (update_length s b) (update_pairwise s b)

/-- C1: for every sequence of candle merges into a (symbol, timeframe)
series, in any arrival order and with duplicate timestamps, the
resulting series has length at most 100, its timestamps are strictly
increasing, and every stored candle is the last-merged candle bearing
its timestamp. -/
theorem candle_store_invariant (batches : List (List Candle)) :
    (merge_history batches).length ≤ max_candles ∧
    (merge_history batches).Pairwise (fun a b => a.timestamp < b.timestamp) ∧
    ∀ c ∈ merge_history batches, last_write batches.flatten c.timestamp = some c := by
  refine ⟨(merge_len_pw batches [] (by simp [max_candles]) (by simp)).1,
    (merge_len_pw batches [] (by simp [max_candles]) (by simp)).2, ?_⟩
  intro c hc
  have h := merge_last_write batches [] [] (by simp) c hc
  simpa using h

/-- Sample candles: two writes at timestamp 2, the second one winning. -/
def exC1a : Candle := ⟨1, 1, 1, 1, 1, 1, 1⟩

def exC1b : Candle := ⟨2, 1, 1, 1, 1, 1, 1⟩

def exC1c : Candle := ⟨2, 3, 3, 3, 3, 3, 3⟩

theorem candle_store_invariant_witness :
    last_write ([[exC1a, exC1b], [exC1c]] : List (List Candle)).flatten exC1c.timestamp
      = some exC1c :=
  (candle_store_invariant [[exC1a, exC1b], [exC1c]]).2.2 exC1c (by decide)

/-- A row of the indicator-augmented DataFrame consumed by
`get_signal`.  The indicator columns are produced by
`calculate_indicators` through the external `ta` library, so an
augmented frame is taken as given input; only the columns `get_signal`
reads are modelled. -/
structure IndCandle where
  close : ℚ
  ema_short : ℚ
  ema_medium : ℚ
  ema_long : ℚ
  rsi : ℚ
  deriving DecidableEq

/-- Price levels of the simple (single-bracket) signal variant. -/
structure Levels where
  entry_price : ℚ
  stop_loss : ℚ
  take_profit : ℚ
  deriving DecidableEq

/-- Embeds `get_signal`: needs at least 2 candles, then examines the
last row (`iloc[-1]`, "current") and the one before (`iloc[-2]`,
"previous"). -/
def get_signal (df : List IndCandle) : Option (String × Levels) :=
  if df.length < 2 then none
  else
    match df.reverse with
    | current :: previous :: _ =>
      if current.ema_short > current.ema_medium ∧ current.ema_medium > current.ema_long ∧
          current.rsi > 30 ∧ current.close > current.ema_short ∧
          previous.close < previous.ema_short then
        some ("long",
          ⟨current.close, current.close * (1 - 23/1000), current.close * (1 + 23/1000)⟩)
      else if current.ema_short < current.ema_medium ∧ current.ema_medium < current.ema_long ∧
          current.rsi < 70 ∧ current.close < current.ema_short ∧
          previous.close > previous.ema_short then
        some ("short",
          ⟨current.close, current.close * (1 + 23/1000), current.close * (1 - 23/1000)⟩)
      else none
    | _ => none

/-- One row of the `strategy_params` table. -/
structure StrategyParamsEntry where
  IN1 : ℚ
  IN2 : ℚ
  TP1 : ℚ
  TP2 : ℚ
  TP3 : ℚ
  TP4 : ℚ
  SL : ℚ
  deriving DecidableEq

/-- Embeds the static `self.strategy_params` table keyed by
(symbol, timeframe). -/
def strategy_params : String → String → Option StrategyParamsEntry
  | "BTCUSDT", "3h" => some ⟨4999, 45/10, 45/1000, 9/100, 14/100, 28/100, 5/100⟩
  | "BTCUSDT", "1h" => some ⟨2100, 8, 23/1000, 46/1000, 69/1000, 138/1000, 23/1000⟩
  | "BTCUSDT", "30m" => some ⟨725, 5, 8/1000, 16/1000, 24/1000, 48/1000, 8/1000⟩
  | "BTCUSDT", "15m" => some ⟨450, 4, 5/1000, 1/100, 15/1000, 3/100, 5/1000⟩
  | "BTCUSDT", "5m" => some ⟨150, 3, 3/1000, 6/1000, 9/1000, 18/1000, 3/1000⟩
  | "ETHUSDT", "3h" => some ⟨4999, 45/10, 45/1000, 9/100, 14/100, 28/100, 5/100⟩
  | "ETHUSDT", "1h" => some ⟨2100, 66/10, 23/1000, 46/1000, 69/1000, 138/1000, 23/1000⟩
  | "ETHUSDT", "30m" => some ⟨725, 5, 8/1000, 16/1000, 24/1000, 48/1000, 8/1000⟩
  | "ETHUSDT", "15m" => some ⟨450, 4, 5/1000, 1/100, 15/1000, 3/100, 5/1000⟩
  | "ETHUSDT", "5m" => some ⟨150, 3, 3/1000, 6/1000, 9/1000, 18/1000, 3/1000⟩
  | "SOLUSDT", "1h" => some ⟨2100, 66/10, 23/1000, 46/1000, 69/1000, 138/1000, 23/1000⟩
  | "SOLUSDT", "30m" => some ⟨725, 5, 8/1000, 16/1000, 24/1000, 48/1000, 8/1000⟩
  | "SOLUSDT", "15m" => some ⟨450, 4, 5/1000, 1/100, 15/1000, 3/100, 5/1000⟩
  | _, _ => none

/-- Price levels of the laddered variant. -/
structure LadderLevels where
  entry_price : ℚ
  take_profit1 : ℚ
  take_profit2 : ℚ
  take_profit3 : ℚ
  take_profit4 : ℚ
  stop_loss : ℚ
  deriving DecidableEq

/-- Embeds `calculate_levels`.  The source fixes `timeframe = "1h"`
("Используем часовой таймфрейм как базовый") no matter which timeframe
produced the signal, then reads the TP1..TP4/SL percentages from the
`strategy_params` entry. -/
def calculate_levels (symbol : String) (entry_price : ℚ) (signal : String) :
    Option LadderLevels :=
  let timeframe := "1h"
  match strategy_params symbol timeframe with
  | none => none
  | some params =>
    if signal = "long" then
      some ⟨entry_price, entry_price * (1 + params.TP1), entry_price * (1 + params.TP2),
        entry_price * (1 + params.TP3), entry_price * (1 + params.TP4),
        entry_price * (1 - params.SL)⟩
    else
      some ⟨entry_price, entry_price * (1 - params.TP1), entry_price * (1 - params.TP2),
        entry_price * (1 - params.TP3), entry_price * (1 - params.TP4),
        entry_price * (1 + params.SL)⟩

/-- Embeds `self.min_price_change`, the per-symbol cooldown
thresholds. -/
def min_price_change : String → Option ℚ
  | "BTCUSDT" => some (2/100)
  | "ETHUSDT" => some (25/1000)
  | "SOLUSDT" => some (3/100)
  | _ => none

/-- Embeds `check_significant_price_change`: accept when no prior
trade is recorded, otherwise accept iff the relative change since the
last trade reaches the symbol's threshold (default 2%). -/
def check_significant_price_change (last_trade_prices : String → Option ℚ)
    (symbol : String) (current_price : ℚ) : Bool :=
  match last_trade_prices symbol with
  | none => true
  | some last_price =>
    let min_change := (min_price_change symbol).getD (2/100)
    let price_change := |current_price - last_price| / last_price
    decide (min_change ≤ price_change)

/-- One open position returned by the exchange's position query. -/
structure OpenPosition where
  size : ℚ
  markPrice : ℚ
  leverage : ℚ
  deriving DecidableEq

/-- Margin summed over open positions (`size * markPrice / leverage`
for each position of positive size). -/
def total_margin_used (ps : List OpenPosition) : ℚ :=
  ps.foldl
    (fun acc position =>
      if 0 < position.size then acc + position.size * position.markPrice / position.leverage
      else acc)
    0

/-- Embeds `check_margin_ratio` (percentage of equity used as margin);
`none` models a failing balance or position API call, and the source
yields 0 when total equity is not positive. -/
def check_margin_usage (total_equity : Option ℚ)
    (open_positions : Option (List OpenPosition)) : Option ℚ :=
  match total_equity with
  | none => none
  | some te =>
    match open_positions with
    | none => none
    | some ps => some (if 0 < te then total_margin_used ps / te * 100 else 0)

/-- Relevant slice of the loaded configuration. -/
structure Config where
  test_mode : Bool
  deriving DecidableEq

/-- Truncation toward zero, Python's `int(x)` on a float. -/
def pyInt (q : ℚ) : ℤ := if 0 ≤ q then ⌊q⌋ else -⌊-q⌋

/-- Embeds `calculate_position_size`: in test mode a fixed single
contract; otherwise 2% of the wallet balance truncated to whole
contracts and clamped to [1, 100] (`balance` is the
`get_wallet_balance` outcome, `none` = failed call). -/
def calculate_position_size (cfg : Config) (balance : Option ℚ)
    (symbol : String) (entry_price : ℚ) : Option ℕ :=
  if cfg.test_mode then some 1
  else
    match balance with
    | none => none
    | some available_balance =>
      let position_value := available_balance * (2/100)
      let quantity := pyInt position_value
      some (max 1 (min 100 quantity)).toNat

/-- Embeds the ladder sizing `int(position_size * 0.4)` etc.; the
operands are nonnegative, so `int` truncation is a floor. -/
def tp_sizes (position_size : ℕ) : ℕ × ℕ × ℕ × ℕ :=
  (position_size * 4 / 10, position_size * 3 / 10, position_size * 2 / 10,
    position_size * 1 / 10)

/-- An API order submission: the market entry order, a
`set_trading_stop` stop-loss, or a partial-mode take-profit leg. -/
inductive Order where
  | market (symbol side : String) (qty : ℕ) (positionIdx : ℕ)
  | setStopLoss (symbol : String) (stopLoss : ℚ) (positionIdx : ℕ)
  | setTakeProfit (symbol : String) (legIdx : ℕ) (takeProfit : ℚ) (tpSize : ℕ)
      (positionIdx : ℕ)
  deriving DecidableEq

/-- Rounds to two decimal places, Python's `round(x, 2)` (ties to even
never arise at the prices analysed here). -/
def round2 (x : ℚ) : ℚ := round (x * 100) / 100

/-- Outcomes of the external exchange calls made during one execution
run, in call order. -/
structure ExchangeEnv where
  total_equity : Option ℚ
  open_positions : Option (List OpenPosition)
  ticker_price : Option ℚ
  balance : Option ℚ
  wallet_balance : Option ℚ
  main_order_ok : Bool
  sl_ok : Bool

/-- Embeds `place_tp_orders`.  Returns the protective orders submitted
to the exchange in submission order together with the boolean result.
A rejected stop-loss (`sl_ok = false`) makes the source log and
`return False` before the take-profit loop runs; a rejected
take-profit leg only logs, so leg outcomes affect neither the trace
nor the result, and the function ends with `return True`. -/
def place_tp_orders (env : ExchangeEnv) (cfg : Config) (symbol signal : String)
    (entry_price : ℚ) (position_idx : ℕ) : List Order × Bool :=
  match calculate_levels symbol entry_price signal with
  | none => ([], false)
  | some levels =>
    match calculate_position_size cfg env.balance symbol entry_price with
    | none => ([], false)
    | some position_size =>
      if position_size = 0 then ([], false)
      else
        let sizes := tp_sizes position_size
        let sl_order := Order.setStopLoss symbol (round2 levels.stop_loss) position_idx
        if env.sl_ok = false then ([sl_order], false)
        else
          let legs := [(1, round2 levels.take_profit1, sizes.1),
                       (2, round2 levels.take_profit2, sizes.2.1),
                       (3, round2 levels.take_profit3, sizes.2.2.1),
                       (4, round2 levels.take_profit4, sizes.2.2.2)]
          let tp_orders := legs.filterMap fun leg =>
            if leg.2.2 < 1 then none
            else some (Order.setTakeProfit symbol leg.1 leg.2.1 leg.2.2 position_idx)
          (sl_order :: tp_orders, true)

/-- Reservation stored in `self.positions[symbol]` by `should_trade`. -/
structure PositionEntry where
  signal : String
  levels : Levels
  timeframe : String
  deriving DecidableEq

/-- Mutable per-symbol state: `self.positions` and
`self.last_trade_prices`. -/
structure BotState where
  positions : String → Option PositionEntry
  last_trade_prices : String → Option ℚ

/-- Embeds `should_trade`: requires 50 candles of history, computes
the signal, refuses if a position entry already exists for the symbol,
and otherwise records the reservation (with the firing timeframe). -/
def should_trade (st : BotState) (symbol timeframe : String) (df : List IndCandle) :
    Bool × BotState :=
  if df.length < 50 then (false, st)
  else
    match get_signal df with
    | none => (false, st)
    | some (signal, levels) =>
      match st.positions symbol with
      | some _ => (false, st)
      | none =>
        (true,
          { st with
            positions := fun k =>
              if k = symbol then some ⟨signal, levels, timeframe⟩ else st.positions k })

/-- Embeds `execute_trade`.  Returns the state after the run and the
orders submitted to the exchange, in submission order; every early
`return` of the source leaves the state unchanged. -/
def execute_trade (env : ExchangeEnv) (cfg : Config) (st : BotState) (symbol : String) :
    BotState × List Order :=
  match check_margin_usage env.total_equity env.open_positions with
  | none => (st, [])
  | some margin_usage =>
    if 20 < margin_usage then (st, [])
    else
      match st.positions symbol with
      | none => (st, [])
      | some position_data =>
        let signal := position_data.signal
        match env.ticker_price with
        | none => (st, [])
        | some current_price =>
          if check_significant_price_change st.last_trade_prices symbol current_price
              = false then (st, [])
          else
            match calculate_position_size cfg env.balance symbol current_price with
            | none => (st, [])
            | some position_size =>
              if position_size = 0 then (st, [])
              else
                match env.wallet_balance with
                | none => (st, [])
                | some wallet_balance =>
                  let required_margin := current_price * position_size * (1/100)
                  if wallet_balance < required_margin then (st, [])
                  else
                    let position_idx : ℕ := if signal = "long" then 1 else 2
                    let main_order := Order.market symbol
                      (if signal = "long" then "Buy" else "Sell") position_size position_idx
                    if env.main_order_ok = false then (st, [main_order])
                    else
                      let st1 : BotState :=
                        { st with
                          last_trade_prices := fun k =>
                            if k = symbol then some current_price
                            else st.last_trade_prices k }
                      let tp := place_tp_orders env cfg symbol signal current_price
                        position_idx
                      (st1, main_order :: tp.1)

/-- Size of the take-profit leg an order submits (0 for other orders). -/
def tp_size_of : Order → ℕ
  | Order.setTakeProfit _ _ _ sz _ => sz
  | _ => 0

/-- Positions table holding exactly one reservation. -/
def single_position (symbol sig : String) (lv : Levels) (tf : String) :
    String → Option PositionEntry :=
  fun k => if k = symbol then some ⟨sig, lv, tf⟩ else none

/-- Live-mode configuration. -/
def exCfg : Config := ⟨false⟩

/-- Current candle of the sample frame: uptrend, rsi 50, close above
the short EMA. -/
def curC : IndCandle := ⟨4, 3, 2, 1, 50⟩

/-- Previous candle of the sample frame: close below the short EMA. -/
def prevC : IndCandle := ⟨1, 2, 2, 2, 50⟩

/-- A 50-candle frame whose last two rows fire a long signal. -/
def exDf : List IndCandle := List.replicate 48 prevC ++ [prevC, curC]

/-- A two-candle frame firing the same long signal. -/
def exDf2 : List IndCandle := [prevC, curC]

/-- Levels produced by `get_signal` on the sample frame. -/
def lvEx : Levels := ⟨4, 977/250, 1023/250⟩

/-- Empty bot state. -/
def st0 : BotState := ⟨fun _ => none, fun _ => none⟩

/-- State after the sample frame's signal is admitted on the 15-minute
stream. -/
def st1 : BotState := (should_trade st0 "BTCUSDT" "15" exDf).2

/-- State holding a reservation that fired on the 15m timeframe. -/
def exStR : BotState :=
  ⟨single_position "BTCUSDT" "long" ⟨100, 977/10, 1023/10⟩ "15m", fun _ => none⟩

/-- Exchange outcomes: equity 1000, margin used 250 (25%), everything
else healthy. -/
def envRej : ExchangeEnv := ⟨some 1000, some [⟨5, 500, 10⟩], some 100, some 500, some 1000, true, true⟩

/-- Exchange outcomes: equity 1000, margin used 150 (15%), ticker 100,
wallet 500 and 1000, all orders accepted. -/
def envAcc : ExchangeEnv := ⟨some 1000, some [⟨3, 500, 10⟩], some 100, some 500, some 1000, true, true⟩

/-- Same as `envAcc` except the stop-loss submission is rejected. -/
def envSLFail : ExchangeEnv := ⟨some 1000, some [⟨3, 500, 10⟩], some 100, some 500, some 1000, true, false⟩

/-- C10: with `test_mode` enabled, position sizing returns the constant
quantity 1 for every balance-query outcome, symbol and entry price;
the equity-percentage formula and the balance query are bypassed. -/
theorem test_mode_position_size (cfg : Config) (h : cfg.test_mode = true) :
    ∀ (balance : Option ℚ) (symbol : String) (entry_price : ℚ),
      calculate_position_size cfg balance symbol entry_price = some 1 := by
  intro balance symbol entry_price
  simp [calculate_position_size, h]

theorem test_mode_position_size_witness :
    calculate_position_size ⟨true⟩ none "BTCUSDT" 50000 = some 1 :=
  test_mode_position_size ⟨true⟩ rfl none "BTCUSDT" 50000

/-- C6: with a recorded last trade price the cooldown gate rejects
exactly when the relative price change is below the symbol's
`min_price_change` threshold; with no recorded trade it always
accepts; and on the worked example (last price 100, threshold 2%) a
price of 101 is rejected while 103 is accepted. -/
theorem cooldown_gate_spec :
    (∀ (ltp : String → Option ℚ) (symbol : String) (cp lp : ℚ), ltp symbol = some lp →
      (check_significant_price_change ltp symbol cp = false ↔
        |cp - lp| / lp < (min_price_change symbol).getD (2/100))) ∧
    (∀ (ltp : String → Option ℚ) (symbol : String) (cp : ℚ), ltp symbol = none →
      check_significant_price_change ltp symbol cp = true) ∧
    min_price_change "BTCUSDT" = some (2/100) ∧
    check_significant_price_change (fun _ => some 100) "BTCUSDT" 101 = false ∧
    check_significant_price_change (fun _ => some 100) "BTCUSDT" 103 = true := by
  refine ⟨?_, ?_, rfl, ?_, ?_⟩
  · intro ltp symbol cp lp h
    simp [check_significant_price_change, h, not_le]
  · intro ltp symbol cp h
    simp [check_significant_price_change, h]
  · simp only [check_significant_price_change, min_price_change]
    norm_num
  · simp only [check_significant_price_change, min_price_change]
    norm_num

theorem cooldown_gate_spec_witness :
    check_significant_price_change (fun _ => some 200) "ETHUSDT" 201 = false :=
  (cooldown_gate_spec.1 (fun _ => some 200) "ETHUSDT" 201 200 rfl).mpr (by norm_num [min_price_change])

lemma total_margin_foldl (ps : List OpenPosition) :
    ∀ a : ℚ,
      ps.foldl
        (fun acc position =>
          if 0 < position.size then
            acc + position.size * position.markPrice / position.leverage
          else acc) a
        = a + ((ps.filter fun p => decide (0 < p.size)).map
            (fun p => p.size * p.markPrice / p.leverage)).sum := by
  induction ps with
  | nil => intro a; simp
  | cons p rest ih =>
    intro a
    rw [List.foldl_cons, List.filter_cons]
    by_cases h : 0 < p.size
    · rw [if_pos h, if_pos (by simpa using h), List.map_cons, List.sum_cons, ih]
      ring
    · rw [if_neg h, if_neg (by simpa using h), ih]

lemma calculate_levels_BTC_100_long :
    calculate_levels "BTCUSDT" 100 "long"
      = some ⟨100, 1023/10, 1046/10, 1069/10, 1138/10, 977/10⟩ := by
  simp only [calculate_levels, strategy_params]
  norm_num

lemma position_size_500 (symbol : String) (entry : ℚ) :
    calculate_position_size exCfg (some 500) symbol entry = some 10 := by
  simp only [calculate_position_size, exCfg, pyInt]
  norm_num
  rfl

lemma place_tp_orders_envAcc :
    place_tp_orders envAcc exCfg "BTCUSDT" "long" 100 1 =
      ([Order.setStopLoss "BTCUSDT" (977/10) 1,
        Order.setTakeProfit "BTCUSDT" 1 (1023/10) 4 1,
        Order.setTakeProfit "BTCUSDT" 2 (1046/10) 3 1,
        Order.setTakeProfit "BTCUSDT" 3 (1069/10) 2 1,
        Order.setTakeProfit "BTCUSDT" 4 (1138/10) 1 1], true) := by
  unfold place_tp_orders
  rw [calculate_levels_BTC_100_long]
  have hq : envAcc.balance = some 500 := rfl
  rw [hq, position_size_500]
  simp only [tp_sizes, round2, envAcc]
  norm_num [round_eq, List.filterMap]

lemma execute_trade_envAcc_trace :
    (execute_trade envAcc exCfg exStR "BTCUSDT").2 =
      [Order.market "BTCUSDT" "Buy" 10 1,
       Order.setStopLoss "BTCUSDT" (977/10) 1,
       Order.setTakeProfit "BTCUSDT" 1 (1023/10) 4 1,
       Order.setTakeProfit "BTCUSDT" 2 (1046/10) 3 1,
       Order.setTakeProfit "BTCUSDT" 3 (1069/10) 2 1,
       Order.setTakeProfit "BTCUSDT" 4 (1138/10) 1 1] := by
  have hm : check_margin_usage envAcc.total_equity envAcc.open_positions = some 15 := by
    show check_margin_usage (some 1000) (some [⟨3, 500, 10⟩]) = some 15
    simp only [check_margin_usage, total_margin_used]
    rw [total_margin_foldl]
    norm_num
  have hpos : exStR.positions "BTCUSDT" = some ⟨"long", ⟨100, 977/10, 1023/10⟩, "15m"⟩ := by
    simp [exStR, single_position]
  unfold execute_trade
  rw [hm]
  dsimp only
  rw [if_neg (by norm_num : ¬ (20:ℚ) < 15), hpos]
  dsimp only
  have ht : envAcc.ticker_price = some 100 := rfl
  rw [ht]
  dsimp only
  have hpc : check_significant_price_change exStR.last_trade_prices "BTCUSDT" 100 = true := by
    simp [exStR, check_significant_price_change]
  rw [if_neg (by simp [hpc])]
  have hb : envAcc.balance = some 500 := rfl
  rw [hb, position_size_500]
  dsimp only
  rw [if_neg (by norm_num)]
  have hw : envAcc.wallet_balance = some 1000 := rfl
  rw [hw]
  dsimp only
  rw [if_neg (by norm_num : ¬ (1000:ℚ) < 100 * (10:ℕ) * (1/100))]
  have hmain : envAcc.main_order_ok = true := rfl
  rw [if_neg (by simp [hmain])]
  simp only [if_true]
  rw [place_tp_orders_envAcc]

/-- C5: the margin gate computes the usage percentage as the sum over
open positions of size*markPrice/leverage, divided by total equity,
times 100; `execute_trade` skips a new entry exactly on usage above
20; usage 250 of equity 1000 (25%) is rejected while 150 (15%) is
accepted. -/
theorem margin_gate_spec :
    (∀ (te : ℚ) (ps : List OpenPosition), 0 < te →
      check_margin_usage (some te) (some ps) = some (total_margin_used ps / te * 100)) ∧
    (∀ ps : List OpenPosition,
      total_margin_used ps =
        ((ps.filter fun p => decide (0 < p.size)).map
          (fun p => p.size * p.markPrice / p.leverage)).sum) ∧
    (∀ (env : ExchangeEnv) (cfg : Config) (st : BotState) (symbol : String) (mr : ℚ),
      check_margin_usage env.total_equity env.open_positions = some mr → 20 < mr →
      execute_trade env cfg st symbol = (st, [])) ∧
    check_margin_usage (some 1000) (some [⟨5, 500, 10⟩]) = some 25 ∧
    check_margin_usage (some 1000) (some [⟨3, 500, 10⟩]) = some 15 ∧
    execute_trade envRej exCfg exStR "BTCUSDT" = (exStR, []) ∧
    Order.market "BTCUSDT" "Buy" 10 1 ∈ (execute_trade envAcc exCfg exStR "BTCUSDT").2 := by
  have hsum : ∀ ps : List OpenPosition,
      total_margin_used ps =
        ((ps.filter fun p => decide (0 < p.size)).map
          (fun p => p.size * p.markPrice / p.leverage)).sum := by
    intro ps
    unfold total_margin_used
    rw [total_margin_foldl]
    ring
  have hskip : ∀ (env : ExchangeEnv) (cfg : Config) (st : BotState) (symbol : String)
      (mr : ℚ), check_margin_usage env.total_equity env.open_positions = some mr →
      20 < mr → execute_trade env cfg st symbol = (st, []) := by
    intro env cfg st symbol mr h h20
    unfold execute_trade
    rw [h]
    dsimp only
    rw [if_pos h20]
  have hrej : check_margin_usage (some 1000) (some [⟨5, 500, 10⟩]) = some 25 := by
    simp only [check_margin_usage, total_margin_used]
    rw [total_margin_foldl]
    norm_num
  refine ⟨?_, hsum, hskip, hrej, ?_, ?_, ?_⟩
  · intro te ps hte
    simp [check_margin_usage, hte]
  · simp only [check_margin_usage, total_margin_used]
    rw [total_margin_foldl]
    norm_num
  · exact hskip envRej exCfg exStR "BTCUSDT" 25 hrej (by norm_num)
  · rw [execute_trade_envAcc_trace]
    simp

theorem margin_gate_spec_witness :
    check_margin_usage (some 1000) (some [⟨5, 500, 10⟩]) = some (total_margin_used [⟨5, 500, 10⟩] / 1000 * 100) :=
  margin_gate_spec.1 1000 [⟨5, 500, 10⟩] (by norm_num)

/-- C4: the detector answers Long exactly when, on the last two rows,
the current candle shows ema_short > ema_medium > ema_long, rsi above
30 and close above ema_short while the previous close was below its
ema_short; Short exactly under the mirrored conditions; and no signal
when fewer than 2 candles exist or neither conjunction holds in
full. -/
theorem get_signal_characterization (df : List IndCandle) :
    (df.length < 2 → get_signal df = none) ∧
    (∀ current previous rest, df.reverse = current :: previous :: rest →
      ((∃ lv, get_signal df = some ("long", lv)) ↔
        (current.ema_short > current.ema_medium ∧ current.ema_medium > current.ema_long ∧
          current.rsi > 30 ∧ current.close > current.ema_short ∧
          previous.close < previous.ema_short)) ∧
      ((∃ lv, get_signal df = some ("short", lv)) ↔
        (current.ema_short < current.ema_medium ∧ current.ema_medium < current.ema_long ∧
          current.rsi < 70 ∧ current.close < current.ema_short ∧
          previous.close > previous.ema_short)) ∧
      (¬ (current.ema_short > current.ema_medium ∧ current.ema_medium > current.ema_long ∧
          current.rsi > 30 ∧ current.close > current.ema_short ∧
          previous.close < previous.ema_short) →
        ¬ (current.ema_short < current.ema_medium ∧ current.ema_medium < current.ema_long ∧
          current.rsi < 70 ∧ current.close < current.ema_short ∧
          previous.close > previous.ema_short) →
        get_signal df = none)) := by
  constructor
  · intro h
    unfold get_signal
    rw [if_pos h]
  · intro current previous rest hrev
    have hlen : ¬ df.length < 2 := by
      have h2 : df.reverse.length = rest.length + 2 := by rw [hrev]; simp
      rw [List.length_reverse] at h2
      omega
    have hgs : get_signal df =
        (if current.ema_short > current.ema_medium ∧ current.ema_medium > current.ema_long ∧
            current.rsi > 30 ∧ current.close > current.ema_short ∧
            previous.close < previous.ema_short then
          some ("long", ⟨current.close, current.close * (1 - 23/1000),
            current.close * (1 + 23/1000)⟩)
        else if current.ema_short < current.ema_medium ∧
            current.ema_medium < current.ema_long ∧
            current.rsi < 70 ∧ current.close < current.ema_short ∧
            previous.close > previous.ema_short then
          some ("short", ⟨current.close, current.close * (1 + 23/1000),
            current.close * (1 - 23/1000)⟩)
        else none) := by
      unfold get_signal
      rw [if_neg hlen, hrev]
    rw [hgs]
    by_cases h1 : current.ema_short > current.ema_medium ∧
        current.ema_medium > current.ema_long ∧ current.rsi > 30 ∧
        current.close > current.ema_short ∧ previous.close < previous.ema_short
    · rw [if_pos h1]
      refine ⟨⟨fun _ => h1, fun _ => ⟨_, rfl⟩⟩, ⟨?_, ?_⟩, fun hnl _ => absurd h1 hnl⟩
      · rintro ⟨lv, he⟩
        simp at he
      · intro hs
        exact absurd hs.1 (lt_asymm h1.1)
    · rw [if_neg h1]
      by_cases h2 : current.ema_short < current.ema_medium ∧
          current.ema_medium < current.ema_long ∧ current.rsi < 70 ∧
          current.close < current.ema_short ∧ previous.close > previous.ema_short
      · rw [if_pos h2]
        refine ⟨⟨?_, fun hl => absurd hl h1⟩, ⟨fun _ => h2, fun _ => ⟨_, rfl⟩⟩,
          fun _ hns => absurd h2 hns⟩
        rintro ⟨lv, he⟩
        simp at he
      · rw [if_neg h2]
        refine ⟨⟨?_, fun hl => absurd hl h1⟩, ⟨?_, fun hs => absurd hs h2⟩,
          fun _ _ => rfl⟩
        · rintro ⟨lv, he⟩
          simp at he
        · rintro ⟨lv, he⟩
          simp at he

theorem get_signal_characterization_witness :
    get_signal ([] : List IndCandle) = none ∧
    (∃ lv, get_signal exDf2 = some ("long", lv)) :=
  ⟨(get_signal_characterization []).1 (by decide),
   ((get_signal_characterization exDf2).2 curC prevC [] (by decide)).1.mpr
     (by norm_num [curC, prevC])⟩

lemma strategy_params_1h_facts {symbol : String} {p : StrategyParamsEntry}
    (h : strategy_params symbol "1h" = some p) :
    0 < p.TP1 ∧ 0 < p.TP2 ∧ 0 < p.TP3 ∧ 0 < p.TP4 ∧ 0 < p.SL ∧ p.SL ≤ 1 := by
  unfold strategy_params at h
  split at h <;> first
    | (injection h with h; subst h; norm_num)
    | simp_all

lemma get_signal_inv {df : List IndCandle} {s : String} {lv : Levels}
    (h : get_signal df = some (s, lv)) :
    ∃ e : ℚ, (s = "long" ∧ lv = ⟨e, e * (1 - 23/1000), e * (1 + 23/1000)⟩) ∨
      (s = "short" ∧ lv = ⟨e, e * (1 + 23/1000), e * (1 - 23/1000)⟩) := by
  unfold get_signal at h
  split at h
  · exact absurd h (by simp)
  · cases hrev : df.reverse with
    | nil => rw [hrev] at h; exact absurd h (by simp)
    | cons current tail =>
      cases tail with
      | nil => rw [hrev] at h; exact absurd h (by simp)
      | cons previous rest =>
        rw [hrev] at h
        dsimp only at h
        split_ifs at h with h1 h2
        · refine ⟨current.close, Or.inl ?_⟩
          injection h with h
          injection h with hs hl
          exact ⟨hs.symm, hl.symm⟩
        · refine ⟨current.close, Or.inr ?_⟩
          injection h with h
          injection h with hs hl
          exact ⟨hs.symm, hl.symm⟩

/-- C7: the price levels prepared for submission satisfy the
direction-safety ordering — for a Long signal stop-loss ≤ entry ≤
every take-profit leg, for a Short signal every take-profit leg ≤
entry ≤ stop-loss — both for the laddered levels of
`calculate_levels` and for the single bracket of `get_signal`
(entry prices are nonnegative market prices). -/
theorem direction_safety :
    (∀ (symbol : String) (entry : ℚ) (signal : String) (lv : LadderLevels),
      calculate_levels symbol entry signal = some lv → 0 ≤ entry →
      (signal = "long" →
        lv.stop_loss ≤ lv.entry_price ∧ lv.entry_price ≤ lv.take_profit1 ∧
        lv.entry_price ≤ lv.take_profit2 ∧ lv.entry_price ≤ lv.take_profit3 ∧
        lv.entry_price ≤ lv.take_profit4) ∧
      (signal = "short" →
        lv.take_profit1 ≤ lv.entry_price ∧ lv.take_profit2 ≤ lv.entry_price ∧
        lv.take_profit3 ≤ lv.entry_price ∧ lv.take_profit4 ≤ lv.entry_price ∧
        lv.entry_price ≤ lv.stop_loss)) ∧
    (∀ (df : List IndCandle) (s : String) (lv : Levels),
      get_signal df = some (s, lv) → 0 ≤ lv.entry_price →
      (s = "long" → lv.stop_loss ≤ lv.entry_price ∧ lv.entry_price ≤ lv.take_profit) ∧
      (s = "short" → lv.take_profit ≤ lv.entry_price ∧ lv.entry_price ≤ lv.stop_loss)) := by
  constructor
  · intro symbol entry signal lv h hent
    unfold calculate_levels at h
    dsimp only at h
    cases hp : strategy_params symbol "1h" with
    | none => rw [hp] at h; exact absurd h (by simp)
    | some p =>
      rw [hp] at h
      dsimp only at h
      obtain ⟨hTP1, hTP2, hTP3, hTP4, hSL, hSL1⟩ := strategy_params_1h_facts hp
      split_ifs at h with hsig
      · injection h with h
        subst h
        constructor
        · intro _
          refine ⟨?_, ?_, ?_, ?_, ?_⟩ <;> dsimp only <;>
            nlinarith [mul_nonneg hent hTP1.le, mul_nonneg hent hTP2.le,
              mul_nonneg hent hTP3.le, mul_nonneg hent hTP4.le, mul_nonneg hent hSL.le]
        · intro hshort
          exact absurd (hsig.symm.trans hshort) (by decide)
      · injection h with h
        subst h
        constructor
        · intro hlong
          exact absurd hlong hsig
        · intro _
          refine ⟨?_, ?_, ?_, ?_, ?_⟩ <;> dsimp only <;>
            nlinarith [mul_nonneg hent hTP1.le, mul_nonneg hent hTP2.le,
              mul_nonneg hent hTP3.le, mul_nonneg hent hTP4.le, mul_nonneg hent hSL.le]
  · intro df s lv h hent
    obtain ⟨e, he⟩ := get_signal_inv h
    rcases he with ⟨hs, hlv⟩ | ⟨hs, hlv⟩
    · subst hlv
      dsimp only at hent
      constructor
      · intro _
        constructor <;> dsimp only <;>
          nlinarith [mul_nonneg hent (by norm_num : (0:ℚ) ≤ 23/1000)]
      · intro hshort
        exact absurd (hs.symm.trans hshort) (by decide)
    · subst hlv
      dsimp only at hent
      constructor
      · intro hlong
        exact absurd (hs.symm.trans hlong) (by decide)
      · intro _
        constructor <;> dsimp only <;>
          nlinarith [mul_nonneg hent (by norm_num : (0:ℚ) ≤ 23/1000)]

theorem direction_safety_witness :
    calculate_levels "BTCUSDT" 100 "long"
        = some ⟨100, 1023/10, 1046/10, 1069/10, 1138/10, 977/10⟩ ∧
    ((977:ℚ)/10 ≤ 100 ∧ (100:ℚ) ≤ 1023/10 ∧ (100:ℚ) ≤ 1046/10 ∧
      (100:ℚ) ≤ 1069/10 ∧ (100:ℚ) ≤ 1138/10) :=
  ⟨calculate_levels_BTC_100_long,
    (direction_safety.1 "BTCUSDT" 100 "long"
      ⟨100, 1023/10, 1046/10, 1069/10, 1138/10, 977/10⟩
      calculate_levels_BTC_100_long (by norm_num)).1 rfl⟩

lemma nat_div10_floor (n : ℕ) : (⌊(n : ℚ) / 10⌋ : ℤ) = (n / 10 : ℕ) := by
  rw [Int.floor_eq_iff]
  constructor
  · rw [le_div_iff₀ (by norm_num)]
    exact_mod_cast (by omega : (n/10) * 10 ≤ n)
  · rw [div_lt_iff₀ (by norm_num)]
    push_cast
    exact_mod_cast (by omega : n < (n/10 + 1) * 10)

/-- C8: the take-profit legs are sized at 40%, 30%, 20%, 10% of the
position quantity, each rounded down; a leg whose size is below 1 is
skipped rather than submitted; and the submitted leg sizes sum to at
most the position quantity. -/
theorem ladder_sizing (q : ℕ) (env : ExchangeEnv) (cfg : Config) (symbol signal : String)
    (entry : ℚ) (idx : ℕ)
    (hq : calculate_position_size cfg env.balance symbol entry = some q) :
    (((tp_sizes q).1 : ℤ) = ⌊(q : ℚ) * (40/100)⌋ ∧
      ((tp_sizes q).2.1 : ℤ) = ⌊(q : ℚ) * (30/100)⌋ ∧
      ((tp_sizes q).2.2.1 : ℤ) = ⌊(q : ℚ) * (20/100)⌋ ∧
      ((tp_sizes q).2.2.2 : ℤ) = ⌊(q : ℚ) * (10/100)⌋) ∧
    ((tp_sizes q).1 + (tp_sizes q).2.1 + (tp_sizes q).2.2.1 + (tp_sizes q).2.2.2 ≤ q) ∧
    (∀ s2 i pr sz pi,
      Order.setTakeProfit s2 i pr sz pi ∈ (place_tp_orders env cfg symbol signal entry idx).1 →
      1 ≤ sz) ∧
    (((place_tp_orders env cfg symbol signal entry idx).1.map tp_size_of).sum ≤ q) := by
  have hfloors : ((tp_sizes q).1 : ℤ) = ⌊(q : ℚ) * (40/100)⌋ ∧
      ((tp_sizes q).2.1 : ℤ) = ⌊(q : ℚ) * (30/100)⌋ ∧
      ((tp_sizes q).2.2.1 : ℤ) = ⌊(q : ℚ) * (20/100)⌋ ∧
      ((tp_sizes q).2.2.2 : ℤ) = ⌊(q : ℚ) * (10/100)⌋ := by
    refine ⟨?_, ?_, ?_, ?_⟩
    · rw [show (q:ℚ) * (40/100) = ((q*4 : ℕ) : ℚ)/10 from by push_cast; ring, nat_div10_floor]
      rfl
    · rw [show (q:ℚ) * (30/100) = ((q*3 : ℕ) : ℚ)/10 from by push_cast; ring, nat_div10_floor]
      rfl
    · rw [show (q:ℚ) * (20/100) = ((q*2 : ℕ) : ℚ)/10 from by push_cast; ring, nat_div10_floor]
      rfl
    · rw [show (q:ℚ) * (10/100) = ((q*1 : ℕ) : ℚ)/10 from by push_cast; ring, nat_div10_floor]
      rfl
  have hsum : (tp_sizes q).1 + (tp_sizes q).2.1 + (tp_sizes q).2.2.1 + (tp_sizes q).2.2.2 ≤ q := by
    simp only [tp_sizes]
    omega
  have htrace : (∀ s2 i pr sz pi,
      Order.setTakeProfit s2 i pr sz pi ∈ (place_tp_orders env cfg symbol signal entry idx).1 →
      1 ≤ sz) ∧
      (((place_tp_orders env cfg symbol signal entry idx).1.map tp_size_of).sum ≤ q) := by
    unfold place_tp_orders
    cases hlv : calculate_levels symbol entry signal with
    | none =>
      exact ⟨fun s2 i pr sz pi hmem => absurd hmem (by simp), by simp⟩
    | some levels =>
      dsimp only
      rw [hq]
      dsimp only
      by_cases hq0 : q = 0
      · rw [if_pos hq0]
        exact ⟨fun s2 i pr sz pi hmem => absurd hmem (by simp), by simp⟩
      · rw [if_neg hq0]
        by_cases hsl : env.sl_ok = false
        · rw [if_pos hsl]
          refine ⟨fun s2 i pr sz pi hmem => ?_, by simp [tp_size_of]⟩
          rcases List.mem_cons.mp hmem with he | h0
          · exact absurd he (by simp)
          · exact absurd h0 (by simp)
        · rw [if_neg hsl]
          dsimp only
          constructor
          · intro s2 i pr sz pi hmem
            rcases List.mem_cons.mp hmem with he | hmem2
            · exact absurd he (by simp)
            · obtain ⟨leg, hlegmem, hf⟩ := List.mem_filterMap.mp hmem2
              by_cases hlt : leg.2.2 < 1
              · rw [if_pos hlt] at hf
                exact absurd hf (by simp)
              · rw [if_neg hlt] at hf
                injection hf with hf
                injection hf with e1 e2 e3 e4 e5
                omega
          · simp only [List.filterMap_cons, List.filterMap_nil]
            split_ifs <;>
              simp only [List.map_cons, List.map_nil, List.sum_cons, List.sum_nil,
                tp_size_of, tp_sizes] <;>
              simp only [tp_sizes] at * <;> omega
  exact ⟨hfloors, hsum, htrace.1, htrace.2⟩

theorem ladder_sizing_witness :
    (tp_sizes 10).1 + (tp_sizes 10).2.1 + (tp_sizes 10).2.2.1 + (tp_sizes 10).2.2.2 ≤ 10 :=
  (ladder_sizing 10 envAcc exCfg "BTCUSDT" "long" 100 1 (position_size_500 "BTCUSDT" 100)).2.1

/-- C3 counterexample: with every take-profit leg size at least 1
(position size 10 gives leg sizes 4, 3, 2, 1), a rejected stop-loss
submission makes `place_tp_orders` return immediately with only the
stop-loss attempt in the trace — no take-profit leg is submitted. -/
theorem sl_failure_blocks_tp_counterexample :
    place_tp_orders envSLFail exCfg "BTCUSDT" "long" 100 1
        = ([Order.setStopLoss "BTCUSDT" (977/10) 1], false) ∧
    (tp_sizes 10).1 = 4 ∧ (tp_sizes 10).2.1 = 3 ∧
    (tp_sizes 10).2.2.1 = 2 ∧ (tp_sizes 10).2.2.2 = 1 := by
  refine ⟨?_, rfl, rfl, rfl, rfl⟩
  unfold place_tp_orders
  rw [calculate_levels_BTC_100_long]
  have hb : envSLFail.balance = some 500 := rfl
  rw [hb, position_size_500]
  dsimp only
  rw [if_neg (by norm_num), if_pos (show envSLFail.sl_ok = false from rfl)]
  norm_num [round2, round_eq]

/-- C3 amended: a rejected stop-loss makes `place_tp_orders` return
failure immediately and no take-profit leg is submitted; when the
stop-loss succeeds, every take-profit leg of size at least 1 is
submitted regardless of the legs' own outcomes and the function
returns success. -/
theorem sl_failure_stops_protective_orders (env : ExchangeEnv) (cfg : Config)
    (symbol signal : String) (entry : ℚ) (idx : ℕ) (levels : LadderLevels) (q : ℕ)
    (hlv : calculate_levels symbol entry signal = some levels)
    (hq : calculate_position_size cfg env.balance symbol entry = some q)
    (hq0 : q ≠ 0) :
    (env.sl_ok = false →
      place_tp_orders env cfg symbol signal entry idx
        = ([Order.setStopLoss symbol (round2 levels.stop_loss) idx], false)) ∧
    (env.sl_ok = true →
      (place_tp_orders env cfg symbol signal entry idx).2 = true ∧
      (1 ≤ (tp_sizes q).1 →
        Order.setTakeProfit symbol 1 (round2 levels.take_profit1) (tp_sizes q).1 idx
          ∈ (place_tp_orders env cfg symbol signal entry idx).1) ∧
      (1 ≤ (tp_sizes q).2.1 →
        Order.setTakeProfit symbol 2 (round2 levels.take_profit2) (tp_sizes q).2.1 idx
          ∈ (place_tp_orders env cfg symbol signal entry idx).1) ∧
      (1 ≤ (tp_sizes q).2.2.1 →
        Order.setTakeProfit symbol 3 (round2 levels.take_profit3) (tp_sizes q).2.2.1 idx
          ∈ (place_tp_orders env cfg symbol signal entry idx).1) ∧
      (1 ≤ (tp_sizes q).2.2.2 →
        Order.setTakeProfit symbol 4 (round2 levels.take_profit4) (tp_sizes q).2.2.2 idx
          ∈ (place_tp_orders env cfg symbol signal entry idx).1)) := by
  constructor
  · intro hsl
    unfold place_tp_orders
    rw [hlv]
    dsimp only
    rw [hq]
    dsimp only
    rw [if_neg hq0, if_pos hsl]
  · intro hsl
    have hexp : place_tp_orders env cfg symbol signal entry idx
        = (Order.setStopLoss symbol (round2 levels.stop_loss) idx ::
            [(1, round2 levels.take_profit1, (tp_sizes q).1),
             (2, round2 levels.take_profit2, (tp_sizes q).2.1),
             (3, round2 levels.take_profit3, (tp_sizes q).2.2.1),
             (4, round2 levels.take_profit4, (tp_sizes q).2.2.2)].filterMap
              (fun leg => if leg.2.2 < 1 then none
                else some (Order.setTakeProfit symbol leg.1 leg.2.1 leg.2.2 idx)), true) := by
      unfold place_tp_orders
      rw [hlv]
      dsimp only
      rw [hq]
      dsimp only
      rw [if_neg hq0, if_neg (by simp [hsl])]
    rw [hexp]
    refine ⟨rfl, ?_, ?_, ?_, ?_⟩ <;> intro hge <;>
      simp only [List.filterMap_cons, List.filterMap_nil] <;>
      split_ifs <;> first | (simp; done) | exact absurd hge (by omega)

theorem sl_failure_stops_protective_orders_witness :
    (place_tp_orders envAcc exCfg "BTCUSDT" "long" 100 1).2 = true ∧
    Order.setTakeProfit "BTCUSDT" 1 (round2 (1023/10)) (tp_sizes 10).1 1
      ∈ (place_tp_orders envAcc exCfg "BTCUSDT" "long" 100 1).1 := by
  have h := (sl_failure_stops_protective_orders envAcc exCfg "BTCUSDT" "long" 100 1
    ⟨100, 1023/10, 1046/10, 1069/10, 1138/10, 977/10⟩ 10
    calculate_levels_BTC_100_long (position_size_500 "BTCUSDT" 100) (by norm_num)).2 rfl
  exact ⟨h.1, h.2.1 (by norm_num [tp_sizes])⟩

lemma get_signal_exDf : get_signal exDf = some ("long", lvEx) := by
  have hrev : exDf.reverse = curC :: prevC :: List.replicate 48 prevC := by
    simp [exDf]
  have hlen : ¬ exDf.length < 2 := by simp [exDf]
  unfold get_signal
  rw [if_neg hlen, hrev]
  dsimp only
  rw [if_pos (by norm_num [curC, prevC])]
  norm_num [curC, lvEx]

lemma st1_positions : st1.positions "BTCUSDT" = some ⟨"long", lvEx, "15"⟩ := by
  unfold st1 should_trade
  rw [if_neg (by simp [exDf]), get_signal_exDf]
  simp [st0]

/-- C2 counterexample: the sample signal for BTCUSDT is admitted into
the ledger; the execution run then terminates at the margin risk-gate
skip, yet the reservation is still present afterwards and a later
identical signal for the symbol is refused. -/
theorem reservation_never_released_counterexample :
    (should_trade st0 "BTCUSDT" "15" exDf).1 = true ∧
    execute_trade envRej exCfg st1 "BTCUSDT" = (st1, []) ∧
    st1.positions "BTCUSDT" = some ⟨"long", lvEx, "15"⟩ ∧
    (should_trade st1 "BTCUSDT" "15" exDf).1 = false := by
  refine ⟨?_, ?_, st1_positions, ?_⟩
  · unfold should_trade
    rw [if_neg (by simp [exDf]), get_signal_exDf]
    rfl
  · have hm : check_margin_usage envRej.total_equity envRej.open_positions = some 25 := by
      show check_margin_usage (some 1000) (some [⟨5, 500, 10⟩]) = some 25
      simp only [check_margin_usage, total_margin_used]
      rw [total_margin_foldl]
      norm_num
    unfold execute_trade
    rw [hm]
    dsimp only
    rw [if_pos (by norm_num : (20:ℚ) < 25)]
  · unfold should_trade
    rw [if_neg (by simp [exDf]), get_signal_exDf]
    dsimp only
    rw [st1_positions]

/-- C2 amended: the reservation admitted into `positions` is never
cleared: `execute_trade` leaves `positions` unchanged in every branch
(no terminal state — rejection, risk-gate skip, or completed run —
deletes the entry), so every later signal for a reserved symbol is
refused by `should_trade`. -/
theorem reservation_never_released (env : ExchangeEnv) (cfg : Config) (st : BotState)
    (symbol : String) :
    ((execute_trade env cfg st symbol).1.positions = st.positions) ∧
    (∀ (timeframe : String) (df : List IndCandle) (entry : PositionEntry),
      st.positions symbol = some entry →
      should_trade st symbol timeframe df = (false, st)) := by
  constructor
  · unfold execute_trade
    cases check_margin_usage env.total_equity env.open_positions with
    | none => rfl
    | some mu =>
      dsimp only
      split
      · rfl
      · cases st.positions symbol with
        | none => rfl
        | some pd =>
          dsimp only
          cases env.ticker_price with
          | none => rfl
          | some cp =>
            dsimp only
            split
            · rfl
            · cases calculate_position_size cfg env.balance symbol cp with
              | none => rfl
              | some ps =>
                dsimp only
                split
                · rfl
                · cases env.wallet_balance with
                  | none => rfl
                  | some wb =>
                    dsimp only
                    split
                    · rfl
                    · split
                      · rfl
                      · rfl
  · intro timeframe df entry h
    unfold should_trade
    split
    · rfl
    · cases get_signal df with
      | none => rfl
      | some pr =>
        rcases pr with ⟨sig, lv⟩
        dsimp only
        rw [h]

theorem reservation_never_released_witness :
    should_trade st1 "BTCUSDT" "15" exDf = (false, st1) :=
  (reservation_never_released envRej exCfg st1 "BTCUSDT").2 "15" exDf
    ⟨"long", lvEx, "15"⟩ st1_positions

/-- C9 counterexample: a BTCUSDT trade whose signal fired on the 15m
timeframe (stored in the reservation) submits its first take-profit
leg at 102.3 = round2(100·(1+0.023)), the 1h TP1 percentage, and not
at round2(100·(1+0.005)) = 100.5, the BTCUSDT 15m TP1 percentage. -/
theorem levels_ignore_timeframe_counterexample :
    exStR.positions "BTCUSDT" = some ⟨"long", ⟨100, 977/10, 1023/10⟩, "15m"⟩ ∧
    strategy_params "BTCUSDT" "15m"
      = some ⟨450, 4, 5/1000, 1/100, 15/1000, 3/100, 5/1000⟩ ∧
    Order.setTakeProfit "BTCUSDT" 1 (1023/10) 4 1
      ∈ (execute_trade envAcc exCfg exStR "BTCUSDT").2 ∧
    (1023/10 : ℚ) = round2 (100 * (1 + 23/1000)) ∧
    (1023/10 : ℚ) ≠ round2 (100 * (1 + 5/1000)) := by
  refine ⟨by simp [exStR, single_position], rfl, ?_, ?_, ?_⟩
  · rw [execute_trade_envAcc_trace]
    simp
  · norm_num [round2, round_eq]
  · norm_num [round2, round_eq]

lemma execute_trade_trace_signal_only (env : ExchangeEnv) (cfg : Config)
    {st st2 : BotState} {symbol : String} {e e2 : PositionEntry}
    (h1 : st.positions symbol = some e) (h2 : st2.positions symbol = some e2)
    (hsig : e.signal = e2.signal)
    (hltp : st.last_trade_prices = st2.last_trade_prices) :
    (execute_trade env cfg st symbol).2 = (execute_trade env cfg st2 symbol).2 := by
  unfold execute_trade
  rw [h1, h2]
  dsimp only
  rw [hsig, hltp]
  cases check_margin_usage env.total_equity env.open_positions with
  | none => rfl
  | some mu =>
    dsimp only
    split
    · rfl
    · cases env.ticker_price with
      | none => rfl
      | some cp =>
        dsimp only
        split
        · rfl
        · cases calculate_position_size cfg env.balance symbol cp with
          | none => rfl
          | some ps =>
            dsimp only
            split
            · rfl
            · cases env.wallet_balance with
              | none => rfl
              | some wb =>
                dsimp only
                split
                · rfl
                · split
                  · rfl
                  · rfl

/-- C9 amended: the TP1..TP4 and SL percentages applied to the
protective ladder are those of the StrategyParams entry keyed by the
symbol and the fixed timeframe "1h", regardless of the timeframe on
which the signal fired: the levels follow the 1h-derived formulas, and
the submitted orders do not depend on the stored timeframe at all. -/
theorem levels_always_use_1h (symbol : String) (entry : ℚ) (signal : String)
    (p : StrategyParamsEntry) (h : strategy_params symbol "1h" = some p) :
    (calculate_levels symbol entry signal =
      (if signal = "long" then
        some ⟨entry, entry * (1 + p.TP1), entry * (1 + p.TP2), entry * (1 + p.TP3),
          entry * (1 + p.TP4), entry * (1 - p.SL)⟩
      else
        some ⟨entry, entry * (1 - p.TP1), entry * (1 - p.TP2), entry * (1 - p.TP3),
          entry * (1 - p.TP4), entry * (1 + p.SL)⟩)) ∧
    (∀ (env : ExchangeEnv) (cfg : Config) (ltp : String → Option ℚ) (sig : String)
      (lv : Levels) (tf tf2 : String),
      (execute_trade env cfg ⟨single_position symbol sig lv tf, ltp⟩ symbol).2 =
      (execute_trade env cfg ⟨single_position symbol sig lv tf2, ltp⟩ symbol).2) := by
  constructor
  · unfold calculate_levels
    dsimp only
    rw [h]
  · intro env cfg ltp sig lv tf tf2
    exact execute_trade_trace_signal_only env cfg
      (show (⟨single_position symbol sig lv tf, ltp⟩ : BotState).positions symbol
          = some ⟨sig, lv, tf⟩ by simp [single_position])
      (show (⟨single_position symbol sig lv tf2, ltp⟩ : BotState).positions symbol
          = some ⟨sig, lv, tf2⟩ by simp [single_position])
      rfl rfl

theorem levels_always_use_1h_witness :
    (execute_trade envAcc exCfg
        ⟨single_position "BTCUSDT" "long" ⟨100, 977/10, 1023/10⟩ "15m", fun _ => none⟩
        "BTCUSDT").2 =
    (execute_trade envAcc exCfg
        ⟨single_position "BTCUSDT" "long" ⟨100, 977/10, 1023/10⟩ "1h", fun _ => none⟩
        "BTCUSDT").2 :=
  (levels_always_use_1h "BTCUSDT" 100 "long"
    ⟨2100, 8, 23/1000, 46/1000, 69/1000, 138/1000, 23/1000⟩ rfl).2
    envAcc exCfg (fun _ => none) "long" ⟨100, 977/10, 1023/10⟩ "15m" "1h"

end GGShot
